import Mathlib

/-!
Verification of the activity-debounced message aggregator in
`src/static/chat.js`.

JavaScript strings are embedded as `List Char` (`JStr`); `String.prototype.trim`
becomes `trim`, `Array.prototype.join(" ")` becomes `joinSp`.  The page state
(pending buffer, inactivity timer, send button, typing indicator, rendered
bubbles) is a `ClientState`; the browser's timer table is embedded explicitly
as a list of live timers so that "at most one timer is live" is a provable
invariant rather than a modelling assumption.  Network calls are recorded in a
`dispatches` log together with ghost observations (the chunks merged into the
payload, the send-button state and the number of in-flight requests at the
moment of dispatch); responses arrive as explicit events.
-/

namespace Chat

/-- JavaScript string, embedded as a list of characters. -/
abbrev JStr := List Char

/-- Whitespace class used by `trim` (space, tab, newline, carriage return). -/
def isWS (c : Char) : Bool := c = ' ' || c = '\t' || c = '\n' || c = '\r'

/-- Drop leading whitespace. -/
def trimLeft (s : JStr) : JStr := s.dropWhile isWS

/-- Drop trailing whitespace. -/
def trimRight (s : JStr) : JStr := (s.reverse.dropWhile isWS).reverse

/-- JavaScript `String.prototype.trim`. -/
def trim (s : JStr) : JStr := trimRight (trimLeft s)

/-- JavaScript `Array.prototype.join(" ")`. -/
def joinSp : List JStr → JStr
  | [] => []
  | [x] => x
  | x :: y :: xs => x ++ ' ' :: joinSp (y :: xs)

/-- Who a rendered bubble belongs to. -/
inductive Sender where
  | user
  | bot
deriving DecidableEq

/-- A message record `{sender, text, time}`. -/
structure Msg where
  sender : Sender
  text : JStr
  time : JStr
deriving DecidableEq

/-- `appendMessage` (chat.js:35): skip empty / whitespace-only messages,
otherwise append a bubble to the messages panel. -/
def appendMessage (msg : Msg) (rendered : List Msg) : List Msg :=
  if msg.text = [] ∨ trim msg.text = [] then rendered
  else rendered ++ [msg]

/-- A live `setTimeout` entry in the browser's timer table. -/
structure Timer where
  handle : Nat
  deadline : Nat
deriving DecidableEq

/-- A `POST /send` network call that was initiated, with ghost observations
taken at the moment of dispatch. -/
structure Dispatch where
  /-- The merged text sent as the request body. -/
  payload : JStr
  /-- Ghost: the pending chunks that were merged into this payload. -/
  chunks : List JStr
  /-- Ghost: whether the send button was disabled when this dispatch started. -/
  wasSending : Bool
  /-- Ghost: how many requests were already in flight when this one started. -/
  wasInFlight : Nat
deriving DecidableEq

/-- Result of one `POST /send` round trip. -/
inductive SendResult where
  /-- `res.ok` and the JSON body parsed, with an optional `bot` record. -/
  | ok (bot : Option Msg)
  /-- `!res.ok`. -/
  | httpError
  /-- `fetch` rejected or `res.json()` threw. -/
  | transportError
deriving DecidableEq

/-- The page state of chat.js between event-loop turns. -/
structure ClientState where
  /-- `pendingChunks`: chunks already committed, awaiting merge. -/
  pendingChunks : List JStr
  /-- `pendingTimer`: handle of the inactivity timer, or `none`. -/
  pendingTimer : Option Nat
  /-- Live timers in the browser runtime (handle, absolute deadline). -/
  timers : List Timer
  /-- Next fresh `setTimeout` handle. -/
  nextHandle : Nat
  /-- `sendBtn.disabled`, toggled by `setSending`. -/
  sendDisabled : Bool
  /-- Whether the typing ("composing") indicator bubble is shown. -/
  typing : Bool
  /-- Bubbles appended to the messages panel, in order. -/
  rendered : List Msg
  /-- Network calls initiated, in order. -/
  dispatches : List Dispatch
  /-- Number of `POST /send` requests currently outstanding. -/
  inFlight : Nat
deriving DecidableEq

/-- Initial page state. -/
def initState : ClientState :=
  { pendingChunks := []
    pendingTimer := none
    timers := []
    nextHandle := 0
    sendDisabled := false
    typing := false
    rendered := []
    dispatches := []
    inFlight := 0 }

/-- `INACTIVITY_MS` (chat.js:16): 4 seconds of no typing. -/
def INACTIVITY_MS : Nat := 4000

/-- `setSending` (chat.js:180): toggle the send button. -/
def setSending (b : Bool) (st : ClientState) : ClientState :=
  { st with sendDisabled := b }

/-- `clearTimeout(h)`: remove the timer with handle `h` from the live set
(a no-op if the timer already fired). -/
def clearTimeout (h : Nat) (timers : List Timer) : List Timer :=
  timers.filter (fun tm => tm.handle ≠ h)

/-- `bumpActivityTimer` (chat.js:97): if nothing is buffered, do nothing;
otherwise cancel the previous inactivity timer (if any) and schedule a fresh
one `INACTIVITY_MS` from now. -/
def bumpActivityTimer (now : Nat) (st : ClientState) : ClientState :=
  if st.pendingChunks = [] then st
  else
    let timers1 :=
      match st.pendingTimer with
      | some h => clearTimeout h st.timers
      | none => st.timers
    { st with
      timers := timers1 ++ [⟨st.nextHandle, now + INACTIVITY_MS⟩]
      pendingTimer := some st.nextHandle
      nextHandle := st.nextHandle + 1 }

/-- Render one decimal digit. -/
def digitChar (n : Nat) : Char := Char.ofNat (48 + n % 10)

/-- `now.toTimeString().slice(0, 5)`: the wall clock as `"HH:MM"`, with the
clock embedded as milliseconds since midnight. -/
def localTime (now : Nat) : JStr :=
  let hh := now / 3600000 % 24
  let mm := now / 60000 % 60
  [digitChar (hh / 10), digitChar hh, ':', digitChar (mm / 10), digitChar mm]

/-- `sendMessage` (chat.js:114): trim the input; no-op when empty; otherwise
echo a user bubble immediately, append the trimmed text to `pendingChunks`,
and bump the inactivity timer. -/
def sendMessage (now : Nat) (input : JStr) (st : ClientState) : ClientState :=
  let text := trim input
  if text = [] then st
  else
    let tempUserMsg : Msg := ⟨Sender.user, text, localTime now⟩
    let st1 := { st with rendered := appendMessage tempUserMsg st.rendered }
    let st2 := { st1 with pendingChunks := st1.pendingChunks ++ [text] }
    bumpActivityTimer now st2

/-- The buffer-clearing prefix of `flushPendingChunks` (chat.js:145): empty
the pending buffer and null the timer handle, before any network activity. -/
def flushClear (st : ClientState) : ClientState :=
  { st with pendingChunks := [], pendingTimer := none }

/-- The dispatching suffix of `flushPendingChunks` (chat.js:148): abort when
the merged text is empty, otherwise disable the send button, show the typing
indicator and initiate the `POST /send` call. -/
def flushDispatch (mergedText : JStr) (chunks : List JStr)
    (st : ClientState) : ClientState :=
  if mergedText = [] then st
  else
    let st1 := setSending true st
    let st2 := { st1 with typing := true }
    { st2 with
      dispatches := st2.dispatches ++
        [⟨mergedText, chunks, st.sendDisabled, st.inFlight⟩]
      inFlight := st2.inFlight + 1 }

/-- `flushPendingChunks` (chat.js:141), up to the point where the request is
in flight: early-return on an empty buffer; merge with `join(" ").trim()`;
clear buffer and timer handle; then abort-or-dispatch. -/
def flushPendingChunks (st : ClientState) : ClientState :=
  if st.pendingChunks = [] then st
  else
    let mergedText := trim (joinSp st.pendingChunks)
    flushDispatch mergedText st.pendingChunks (flushClear st)

/-- The continuation of `flushPendingChunks` once its `fetch` settles
(chat.js:160): hide the typing indicator; on `!res.ok` just log; on success
render the bot reply when `data.bot && data.bot.text && data.bot.text.trim()`
is non-empty; on a thrown error just log; in all cases `finally` re-enables
the send button. -/
def resolveSend (r : SendResult) (st : ClientState) : ClientState :=
  match r with
  | .ok bot =>
      let st1 := { st with typing := false }
      let st2 :=
        match bot with
        | some b =>
            if b.text ≠ [] ∧ trim b.text ≠ [] then
              { st1 with rendered := appendMessage b st1.rendered }
            else st1
        | none => st1
      setSending false { st2 with inFlight := st2.inFlight - 1 }
  | .httpError =>
      let st1 := { st with typing := false }
      setSending false { st1 with inFlight := st1.inFlight - 1 }
  | .transportError =>
      let st1 := { st with typing := false }
      setSending false { st1 with inFlight := st1.inFlight - 1 }

/-- Timer ordering used by the runtime: earlier deadline first, insertion
order (smaller handle) among equal deadlines. -/
def earlier (a b : Timer) : Bool :=
  a.deadline < b.deadline || (a.deadline = b.deadline && a.handle < b.handle)

/-- The next timer due at time `t`, if any. -/
def pickDue (t : Nat) : List Timer → Option Timer
  | [] => none
  | tm :: rest =>
    match pickDue t rest with
    | none => if tm.deadline ≤ t then some tm else none
    | some best =>
        if tm.deadline ≤ t && earlier tm best then some tm else some best

/-- Fire every timer due at time `t`, in runtime order.  Each firing removes
the timer from the live set and runs its callback (`flushPendingChunks`); the
callback never creates a timer, so the number of live timers strictly
decreases and `timers.length + 1` units of fuel always suffice. -/
def fireDueAux : Nat → Nat → ClientState → ClientState
  | 0, _, st => st
  | fuel + 1, t, st =>
    match pickDue t st.timers with
    | none => st
    | some tm =>
        fireDueAux fuel t
          (flushPendingChunks { st with timers := st.timers.erase tm })

/-- Advance the event loop to time `t`, firing all due timers. -/
def fireDue (t : Nat) (st : ClientState) : ClientState :=
  fireDueAux (st.timers.length + 1) t st

/-- External stimuli driving the page. -/
inductive InEvent where
  /-- The user presses Enter with `input` in the text field: the key listener
  (chat.js:195) bumps the activity timer, then calls `sendMessage`. -/
  | commit (input : JStr)
  /-- Any other keystroke: the key listener calls `bumpActivityTimer`. -/
  | activity
  /-- An outstanding `POST /send` request settles with result `r`. -/
  | response (r : SendResult)
deriving DecidableEq

/-- Dispatch one external event at time `t`. -/
def handleEvent (t : Nat) (e : InEvent) (st : ClientState) : ClientState :=
  match e with
  | .commit input => sendMessage t input (bumpActivityTimer t st)
  | .activity => bumpActivityTimer t st
  | .response r => if st.inFlight = 0 then st else resolveSend r st

/-- One event-loop turn: fire timers that came due before the event's time,
then handle the event. -/
def stepEvent (st : ClientState) (ev : Nat × InEvent) : ClientState :=
  handleEvent ev.1 ev.2 (fireDue ev.1 st)

/-- Process a chronological list of timed events. -/
def processEvents (evs : List (Nat × InEvent)) (st : ClientState) : ClientState :=
  evs.foldl stepEvent st

/-- Run a timed trace from the initial page state, then let the clock reach
`tEnd` so that remaining due timers fire. -/
def runTrace (evs : List (Nat × InEvent)) (tEnd : Nat) : ClientState :=
  fireDue tEnd (processEvents evs initState)

/-- Each event happens no earlier than the previous one and strictly less
than `INACTIVITY_MS` after it. -/
def tightFrom (tPrev : Nat) : List (Nat × InEvent) → Bool
  | [] => true
  | (t, _) :: rest => (decide (tPrev ≤ t) && decide (t < tPrev + INACTIVITY_MS))
      && tightFrom t rest

/-- A burst: consecutive events separated by strictly less than the quiet
period. -/
def burst : List (Nat × InEvent) → Bool
  | [] => true
  | (t, _) :: rest => tightFrom t rest

/-- This event is a user-input signal (commit or activity), not a network
response. -/
def isInput : InEvent → Bool
  | .response _ => false
  | _ => true

/-- This event, if a commit, carries text that is non-empty after trimming. -/
def commitClean : InEvent → Bool
  | .commit s => decide (trim s ≠ [])
  | _ => true

/-- The raw texts of the commit events, in order. -/
def commitTexts : List (Nat × InEvent) → List JStr
  | [] => []
  | (_, .commit s) :: rest => s :: commitTexts rest
  | _ :: rest => commitTexts rest

/-- The trimmed fragments the page actually accepts into its buffer:
commits in order, trimmed, skipping whitespace-only ones. -/
def acceptedCommits : List (Nat × InEvent) → List JStr
  | [] => []
  | (_, .commit s) :: rest =>
      if trim s = [] then acceptedCommits rest
      else trim s :: acceptedCommits rest
  | _ :: rest => acceptedCommits rest

/-- The time of the last event (or `d` for the empty trace). -/
def lastTime (d : Nat) : List (Nat × InEvent) → Nat
  | [] => d
  | (t, _) :: rest => lastTime t rest

/-- Every fragment the page has accepted, each accounted once: the fragments
already consumed by dispatched payloads, followed by the ones still pending. -/
def accountedChunks (st : ClientState) : List JStr :=
  (st.dispatches.map Dispatch.chunks).flatten ++ st.pendingChunks

/-- The fragments a single event contributes to the page's buffer. -/
def acceptedOf : InEvent → List JStr
  | .commit s => if trim s = [] then [] else [trim s]
  | _ => []

/-- The timer bookkeeping maintained by chat.js: when `pendingTimer` is null
no timer is live, and when it holds a handle exactly that one timer is live
and the handle is stale-free (smaller than the next fresh handle). -/
def TimerLink (st : ClientState) : Prop :=
  (st.pendingTimer = none → st.timers = []) ∧
  (∀ h, st.pendingTimer = some h →
    ∃ d, st.timers = [⟨h, d⟩] ∧ h < st.nextHandle)

/-- Every buffered fragment is non-empty and equal to its own trim. -/
def ChunksClean (st : ClientState) : Prop :=
  ∀ x ∈ st.pendingChunks, x ≠ [] ∧ trim x = x

/-- The aggregator invariant: clean fragments, single-timer bookkeeping, and
"non-empty buffer iff a timer is armed". -/
def Inv (st : ClientState) : Prop :=
  ChunksClean st ∧ TimerLink st ∧
  (st.pendingChunks = [] ↔ st.pendingTimer = none)

/-- Outcome of the startup `GET /messages` round trip in `loadHistory`. -/
inductive HistoryResult where
  /-- `fetch` resolved and `res.json()` parsed to an array of records. -/
  | ok (msgs : List Msg)
  /-- `fetch` rejected or `res.json()` threw, before the panel was touched. -/
  | fetchError
  /-- The JSON parsed but was not an array, so `data.forEach` threw after
  the panel had already been cleared. -/
  | badShape
deriving DecidableEq

/-- Contents of the messages panel. -/
inductive HistoryPanel where
  /-- A list of rendered bubbles. -/
  | content (msgs : List Msg)
  /-- An explicit "couldn't load" placeholder (never written by chat.js). -/
  | couldNotLoad
deriving DecidableEq

/-- `loadHistory` (chat.js:48): on success clear the panel and render each
record through `appendMessage`; on any failure log the error (second
component) and leave the panel as the catch block left it. -/
def loadHistory (r : HistoryResult) (panel : HistoryPanel) :
    HistoryPanel × Bool :=
  match r with
  | .ok msgs =>
      (.content (msgs.foldl (fun acc m => appendMessage m acc) []), false)
  | .fetchError => (panel, true)
  | .badShape => (.content [], true)

/-- Outcome of the `GET /user_state` round trip in `openDebugPanel`. -/
inductive StateFetch where
  /-- `res.ok` and the body parsed and rendered. -/
  | ok
  /-- `!res.ok`: the handler throws, landing in the catch block. -/
  | httpError
  /-- `fetch` rejected, `res.json()` threw, or rendering threw. -/
  | transportError
deriving DecidableEq

/-- Contents of the debug panel body. -/
inductive DebugBody where
  /-- The transient "Loading…" section. -/
  | loading
  /-- The rendered persona/state/memory tables. -/
  | contentTables
  /-- The explicit "Couldn't load state." placeholder. -/
  | couldNotLoad
deriving DecidableEq

/-- `openDebugPanel` (chat.js:207): render the tables on success; on any
failure log the error (second component) and show the "couldn't load"
placeholder. -/
def openDebugPanel (r : StateFetch) : DebugBody × Bool :=
  match r with
  | .ok => (.contentTables, false)
  | .httpError => (.couldNotLoad, true)
  | .transportError => (.couldNotLoad, true)

/-! ### String lemmas: `trim` and `joinSp` -/

lemma dropWhile_idem (p : Char → Bool) (l : List Char) :
    (l.dropWhile p).dropWhile p = l.dropWhile p := by
  induction l with
  | nil => simp
  | cons c t ih =>
      by_cases h : p c
      · simp [List.dropWhile_cons, h, ih]
      · simp [List.dropWhile_cons, h]

lemma exists_dropWhile_decomp (p : Char → Bool) (l : List Char) :
    ∃ u, l = u ++ l.dropWhile p := by
  induction l with
  | nil => exact ⟨[], rfl⟩
  | cons c t ih =>
      by_cases h : p c
      · obtain ⟨u, hu⟩ := ih
        refine ⟨c :: u, ?_⟩
        simp only [List.dropWhile_cons, h, if_true, List.cons_append,
          List.cons.injEq, true_and]
        exact hu
      · exact ⟨[], by simp [List.dropWhile_cons, h]⟩

lemma dropWhile_head_shape (p : Char → Bool) (l : List Char) :
    l.dropWhile p = [] ∨ ∃ c t, l.dropWhile p = c :: t ∧ p c = false := by
  induction l with
  | nil => exact Or.inl rfl
  | cons c t ih =>
      by_cases h : p c
      · simpa [List.dropWhile_cons, h] using ih
      · refine Or.inr ⟨c, t, ?_, by simpa using h⟩
        simp [List.dropWhile_cons, h]

lemma trimLeft_cons_false (c : Char) (t : JStr) (h : isWS c = false) :
    trimLeft (c :: t) = c :: t := by
  simp [trimLeft, List.dropWhile_cons, h]

lemma trimRight_concat_false (u : JStr) (d : Char) (h : isWS d = false) :
    trimRight (u ++ [d]) = u ++ [d] := by
  simp [trimRight, List.dropWhile_cons, h]

lemma exists_trimRight_decomp (s : JStr) : ∃ v, s = trimRight s ++ v := by
  obtain ⟨u, hu⟩ := exists_dropWhile_decomp isWS s.reverse
  refine ⟨u.reverse, ?_⟩
  have h2 := congrArg List.reverse hu
  simpa [trimRight] using h2

lemma trim_head_not_ws (y : JStr) (c : Char) (t : JStr) (h : trim y = c :: t) :
    isWS c = false := by
  rcases dropWhile_head_shape isWS y with h0 | ⟨c0, t0, h0, hc0⟩
  · exfalso
    have hnil : trim y = [] := by
      show trimRight (trimLeft y) = []
      rw [show trimLeft y = [] from h0]
      rfl
    rw [h] at hnil
    exact List.cons_ne_nil c t hnil
  · obtain ⟨v, hv⟩ := exists_trimRight_decomp (trimLeft y)
    rw [show trimRight (trimLeft y) = trim y from rfl, h,
      show trimLeft y = c0 :: t0 from h0, List.cons_append] at hv
    injection hv with h1 _
    rw [h1] at hc0
    exact hc0

lemma trim_last_shape (y : JStr) (h : trim y ≠ []) :
    ∃ u d, trim y = u ++ [d] ∧ isWS d = false := by
  rcases dropWhile_head_shape isWS (trimLeft y).reverse with h0 | ⟨e, w, h0, he⟩
  · exfalso
    apply h
    show ((trimLeft y).reverse.dropWhile isWS).reverse = []
    rw [h0]
    rfl
  · refine ⟨w.reverse, e, ?_, he⟩
    show ((trimLeft y).reverse.dropWhile isWS).reverse = w.reverse ++ [e]
    rw [h0]
    simp

lemma trim_eq_self_of_ends (s : JStr)
    (hhead : ∃ c t, s = c :: t ∧ isWS c = false)
    (hlast : ∃ u d, s = u ++ [d] ∧ isWS d = false) : trim s = s := by
  obtain ⟨c, t, hct, hc⟩ := hhead
  obtain ⟨u, d, hud, hd⟩ := hlast
  have h1 : trimLeft s = s := by rw [hct]; exact trimLeft_cons_false c t hc
  have h2 : trimRight s = s := by rw [hud]; exact trimRight_concat_false u d hd
  show trimRight (trimLeft s) = s
  rw [h1, h2]

lemma trim_trim (s : JStr) : trim (trim s) = trim s := by
  by_cases h : trim s = []
  · rw [h]; rfl
  · apply trim_eq_self_of_ends
    · cases hts : trim s with
      | nil => exact absurd hts h
      | cons c t => exact ⟨c, t, rfl, trim_head_not_ws s c t hts⟩
    · exact trim_last_shape s h

lemma joinSp_cons_cons (x y : JStr) (xs : List JStr) :
    joinSp (x :: y :: xs) = x ++ ' ' :: joinSp (y :: xs) := rfl

lemma joinSp_head_shape (x : JStr) (rest : List JStr) (c : Char) (t : JStr)
    (hx : x = c :: t) : ∃ t2, joinSp (x :: rest) = c :: t2 := by
  cases rest with
  | nil => exact ⟨t, by rw [show joinSp [x] = x from rfl, hx]⟩
  | cons y ys =>
      refine ⟨t ++ ' ' :: joinSp (y :: ys), ?_⟩
      rw [joinSp_cons_cons, hx]
      rfl

lemma joinSp_last_shape (l : List JStr)
    (h : ∀ x ∈ l, x ≠ [] ∧ trim x = x) (hne : l ≠ []) :
    ∃ u d, joinSp l = u ++ [d] ∧ isWS d = false := by
  induction l with
  | nil => exact absurd rfl hne
  | cons x rest ih =>
      cases rest with
      | nil =>
          have hx := h x (by simp)
          have hxne : trim x ≠ [] := by rw [hx.2]; exact hx.1
          obtain ⟨u, d, hud, hd⟩ := trim_last_shape x hxne
          refine ⟨u, d, ?_, hd⟩
          rw [show joinSp [x] = x from rfl, ← hx.2]
          exact hud
      | cons y ys =>
          obtain ⟨u, d, hud, hd⟩ :=
            ih (fun z hz => h z (List.mem_cons_of_mem x hz)) (by simp)
          refine ⟨x ++ ' ' :: u, d, ?_, hd⟩
          rw [joinSp_cons_cons, hud]
          simp

lemma joinSp_clean (l : List JStr)
    (h : ∀ x ∈ l, x ≠ [] ∧ trim x = x) (hne : l ≠ []) :
    joinSp l ≠ [] ∧ trim (joinSp l) = joinSp l := by
  cases l with
  | nil => exact absurd rfl hne
  | cons x rest =>
      have hx := h x (by simp)
      obtain ⟨c, t, hxs⟩ : ∃ c t, x = c :: t := by
        cases x with
        | nil => exact absurd rfl hx.1
        | cons c t => exact ⟨c, t, rfl⟩
      have hc : isWS c = false := by
        apply trim_head_not_ws x c t
        rw [hx.2]
        exact hxs
      obtain ⟨t2, ht2⟩ := joinSp_head_shape x rest c t hxs
      obtain ⟨u, d, hud, hd⟩ := joinSp_last_shape (x :: rest) h hne
      refine ⟨by rw [ht2]; exact List.cons_ne_nil c t2, ?_⟩
      exact trim_eq_self_of_ends _ ⟨c, t2, ht2, hc⟩ ⟨u, d, hud, hd⟩

/-! ### Structural lemmas about the page operations -/

lemma flushDispatch_timers (m : JStr) (c : List JStr) (st : ClientState) :
    (flushDispatch m c st).timers = st.timers := by
  unfold flushDispatch setSending
  split <;> rfl

lemma flushPendingChunks_timers (st : ClientState) :
    (flushPendingChunks st).timers = st.timers := by
  unfold flushPendingChunks
  split
  · rfl
  · rw [flushDispatch_timers]
    rfl

lemma flush_empty (st : ClientState) (h : st.pendingChunks = []) :
    flushPendingChunks st = st := by
  unfold flushPendingChunks
  simp [h]

lemma flush_dispatch_eq (st : ClientState) (h : st.pendingChunks ≠ [])
    (hm : trim (joinSp st.pendingChunks) ≠ []) :
    flushPendingChunks st =
      { st with
        pendingChunks := []
        pendingTimer := none
        sendDisabled := true
        typing := true
        dispatches := st.dispatches ++
          [⟨trim (joinSp st.pendingChunks), st.pendingChunks,
            st.sendDisabled, st.inFlight⟩]
        inFlight := st.inFlight + 1 } := by
  unfold flushPendingChunks flushDispatch flushClear setSending
  simp [h, hm]

lemma flush_abort_eq (st : ClientState) (h : st.pendingChunks ≠ [])
    (hm : trim (joinSp st.pendingChunks) = []) :
    flushPendingChunks st =
      { st with pendingChunks := [], pendingTimer := none } := by
  unfold flushPendingChunks flushDispatch flushClear
  simp [h, hm]

lemma bump_empty (now : Nat) (st : ClientState) (h : st.pendingChunks = []) :
    bumpActivityTimer now st = st := by
  unfold bumpActivityTimer
  simp [h]

lemma bump_some (now : Nat) (st : ClientState) (h : Nat)
    (hne : st.pendingChunks ≠ []) (hpt : st.pendingTimer = some h)
    (d : Nat) (htimers : st.timers = [⟨h, d⟩]) :
    bumpActivityTimer now st =
      { st with
        timers := [⟨st.nextHandle, now + INACTIVITY_MS⟩]
        pendingTimer := some st.nextHandle
        nextHandle := st.nextHandle + 1 } := by
  unfold bumpActivityTimer clearTimeout
  simp [hne, hpt, htimers]

lemma bump_none (now : Nat) (st : ClientState)
    (hne : st.pendingChunks ≠ []) (hpt : st.pendingTimer = none)
    (htimers : st.timers = []) :
    bumpActivityTimer now st =
      { st with
        timers := [⟨st.nextHandle, now + INACTIVITY_MS⟩]
        pendingTimer := some st.nextHandle
        nextHandle := st.nextHandle + 1 } := by
  unfold bumpActivityTimer
  simp [hne, hpt, htimers]

lemma sendMessage_ws (now : Nat) (input : JStr) (st : ClientState)
    (h : trim input = []) : sendMessage now input st = st := by
  unfold sendMessage
  simp [h]

lemma sendMessage_eq (now : Nat) (input : JStr) (st : ClientState)
    (h : trim input ≠ []) :
    sendMessage now input st =
      bumpActivityTimer now
        { st with
          rendered :=
            appendMessage ⟨Sender.user, trim input, localTime now⟩ st.rendered,
          pendingChunks := st.pendingChunks ++ [trim input] } := by
  unfold sendMessage
  simp [h]

lemma pickDue_nil (t : Nat) : pickDue t [] = none := rfl

lemma pickDue_single (t : Nat) (tm : Timer) :
    pickDue t [tm] = if tm.deadline ≤ t then some tm else none := rfl

lemma fireDueAux_none (fuel t : Nat) (st : ClientState)
    (h : pickDue t st.timers = none) : fireDueAux fuel t st = st := by
  cases fuel with
  | zero => rfl
  | succ n =>
      unfold fireDueAux
      rw [h]

lemma fireDueAux_step (fuel t : Nat) (st : ClientState) (tm : Timer)
    (h : pickDue t st.timers = some tm) :
    fireDueAux (fuel + 1) t st =
      fireDueAux fuel t
        (flushPendingChunks { st with timers := st.timers.erase tm }) := by
  conv_lhs => unfold fireDueAux
  rw [h]

lemma fireDue_no_timers (t : Nat) (st : ClientState) (h : st.timers = []) :
    fireDue t st = st := by
  apply fireDueAux_none
  rw [h]
  rfl

lemma fireDue_single_not_due (t : Nat) (st : ClientState) (h d : Nat)
    (htimers : st.timers = [⟨h, d⟩]) (hlt : t < d) :
    fireDue t st = st := by
  apply fireDueAux_none
  rw [htimers, pickDue_single, if_neg (show ¬ d ≤ t by omega)]

lemma fireDue_single_due (t : Nat) (st : ClientState) (h d : Nat)
    (htimers : st.timers = [⟨h, d⟩]) (hle : d ≤ t) :
    fireDue t st = flushPendingChunks { st with timers := [] } := by
  have hpick : pickDue t st.timers = some ⟨h, d⟩ := by
    rw [htimers, pickDue_single, if_pos (show d ≤ t from hle)]
  have herase : st.timers.erase (⟨h, d⟩ : Timer) = [] := by
    rw [htimers]
    simp
  have hstep := fireDueAux_step st.timers.length t st ⟨h, d⟩ hpick
  rw [herase] at hstep
  show fireDueAux (st.timers.length + 1) t st = _
  rw [hstep]
  apply fireDueAux_none
  rw [flushPendingChunks_timers]
  rfl

lemma resolveSend_fields (r : SendResult) (st : ClientState) :
    (resolveSend r st).pendingChunks = st.pendingChunks ∧
    (resolveSend r st).pendingTimer = st.pendingTimer ∧
    (resolveSend r st).timers = st.timers ∧
    (resolveSend r st).nextHandle = st.nextHandle ∧
    (resolveSend r st).dispatches = st.dispatches ∧
    (resolveSend r st).sendDisabled = false ∧
    (resolveSend r st).typing = false := by
  cases r with
  | ok bot =>
      cases bot with
      | none => exact ⟨rfl, rfl, rfl, rfl, rfl, rfl, rfl⟩
      | some b =>
          simp only [resolveSend, setSending]
          split_ifs <;> exact ⟨rfl, rfl, rfl, rfl, rfl, trivial, rfl⟩
  | httpError => exact ⟨rfl, rfl, rfl, rfl, rfl, rfl, rfl⟩
  | transportError => exact ⟨rfl, rfl, rfl, rfl, rfl, rfl, rfl⟩

/-! ### The aggregator invariant is preserved by every event-loop turn -/

lemma bump_spec (now : Nat) (st : ClientState) (hTL : TimerLink st) :
    TimerLink (bumpActivityTimer now st) ∧
    (bumpActivityTimer now st).pendingChunks = st.pendingChunks ∧
    (bumpActivityTimer now st).rendered = st.rendered ∧
    (bumpActivityTimer now st).dispatches = st.dispatches ∧
    (bumpActivityTimer now st).inFlight = st.inFlight ∧
    (bumpActivityTimer now st).sendDisabled = st.sendDisabled ∧
    (bumpActivityTimer now st).typing = st.typing ∧
    (st.pendingChunks ≠ [] →
      (bumpActivityTimer now st).pendingTimer = some st.nextHandle) ∧
    (st.pendingChunks = [] → bumpActivityTimer now st = st) := by
  by_cases hne : st.pendingChunks = []
  · rw [bump_empty now st hne]
    exact ⟨hTL, rfl, rfl, rfl, rfl, rfl, rfl, fun h => absurd hne h, fun _ => rfl⟩
  · have hbump : bumpActivityTimer now st =
        { st with
          timers := [⟨st.nextHandle, now + INACTIVITY_MS⟩]
          pendingTimer := some st.nextHandle
          nextHandle := st.nextHandle + 1 } := by
      cases hpt : st.pendingTimer with
      | none => exact bump_none now st hne hpt (hTL.1 hpt)
      | some h =>
          obtain ⟨d, htimers, _⟩ := hTL.2 h hpt
          exact bump_some now st h hne hpt d htimers
    rw [hbump]
    refine ⟨⟨?_, ?_⟩, rfl, rfl, rfl, rfl, rfl, rfl, fun _ => rfl,
      fun h => absurd h hne⟩
    · intro hcontra
      simp at hcontra
    · intro h2 hh2
      have h3 : st.nextHandle = h2 := by injection hh2
      subst h3
      exact ⟨now + INACTIVITY_MS, rfl, Nat.lt_succ_self _⟩

lemma bump_inv (now : Nat) (st : ClientState) (hInv : Inv st) :
    Inv (bumpActivityTimer now st) ∧
    accountedChunks (bumpActivityTimer now st) = accountedChunks st ∧
    (bumpActivityTimer now st).dispatches = st.dispatches ∧
    (bumpActivityTimer now st).inFlight = st.inFlight := by
  obtain ⟨hTL2, hchunks, _, hdisp, hifl, _, _, hrepair, hid⟩ :=
    bump_spec now st hInv.2.1
  by_cases hne : st.pendingChunks = []
  · rw [hid hne]
    exact ⟨hInv, rfl, rfl, rfl⟩
  · refine ⟨⟨?_, hTL2, ?_⟩, ?_, hdisp, hifl⟩
    · intro x hx
      rw [hchunks] at hx
      exact hInv.1 x hx
    · constructor
      · intro hc
        rw [hchunks] at hc
        exact absurd hc hne
      · intro hpt
        rw [hrepair hne] at hpt
        cases hpt
    · unfold accountedChunks
      rw [hchunks, hdisp]

lemma sendMessage_spec (now : Nat) (input : JStr) (st : ClientState)
    (hInv : Inv st) :
    Inv (sendMessage now input st) ∧
    (sendMessage now input st).pendingChunks =
      st.pendingChunks ++ acceptedOf (.commit input) ∧
    (sendMessage now input st).dispatches = st.dispatches ∧
    (sendMessage now input st).inFlight = st.inFlight := by
  by_cases h : trim input = []
  · rw [sendMessage_ws now input st h]
    refine ⟨hInv, ?_, rfl, rfl⟩
    simp [acceptedOf, h]
  · rw [sendMessage_eq now input st h]
    set stMid : ClientState :=
      { st with
        rendered :=
          appendMessage ⟨Sender.user, trim input, localTime now⟩ st.rendered
        pendingChunks := st.pendingChunks ++ [trim input] } with hstMid
    have hTLmid : TimerLink stMid := hInv.2.1
    have hmidne : stMid.pendingChunks ≠ [] := by
      show st.pendingChunks ++ [trim input] ≠ []
      simp
    obtain ⟨hTL2, hchunks, _, hdisp, hifl, _, _, hrepair, _⟩ :=
      bump_spec now stMid hTLmid
    refine ⟨⟨?_, hTL2, ?_⟩, ?_, hdisp, hifl⟩
    · intro x hx
      rw [hchunks] at hx
      rcases List.mem_append.1 hx with hx1 | hx2
      · exact hInv.1 x hx1
      · rw [List.mem_singleton.1 hx2]
        exact ⟨h, trim_trim input⟩
    · constructor
      · intro hc
        rw [hchunks] at hc
        exact absurd hc hmidne
      · intro hpt
        rw [hrepair hmidne] at hpt
        cases hpt
    · rw [hchunks]
      show st.pendingChunks ++ [trim input] = st.pendingChunks ++ _
      simp [acceptedOf, h]

lemma fireDue_spec (t : Nat) (st : ClientState) (hInv : Inv st) :
    Inv (fireDue t st) ∧
    accountedChunks (fireDue t st) = accountedChunks st := by
  cases hpt : st.pendingTimer with
  | none =>
      rw [fireDue_no_timers t st (hInv.2.1.1 hpt)]
      exact ⟨hInv, rfl⟩
  | some h =>
      obtain ⟨d, htimers, _⟩ := hInv.2.1.2 h hpt
      by_cases hdt : d ≤ t
      · rw [fireDue_single_due t st h d htimers hdt]
        have hne : st.pendingChunks ≠ [] := by
          intro hc
          rw [hInv.2.2.1 hc] at hpt
          cases hpt
        obtain ⟨hjne, hjtrim⟩ := joinSp_clean st.pendingChunks hInv.1 hne
        have hm : trim (joinSp st.pendingChunks) ≠ [] := by
          rw [hjtrim]
          exact hjne
        rw [flush_dispatch_eq { st with timers := [] } hne hm]
        refine ⟨⟨?_, ⟨?_, ?_⟩, ?_⟩, ?_⟩
        · intro x hx
          cases hx
        · intro _
          rfl
        · intro h2 hh2
          cases hh2
        · simp
        · unfold accountedChunks
          simp
      · rw [fireDue_single_not_due t st h d htimers (by omega)]
        exact ⟨hInv, rfl⟩

lemma acceptedCommits_cons (ev : Nat × InEvent) (rest : List (Nat × InEvent)) :
    acceptedCommits (ev :: rest) = acceptedOf ev.2 ++ acceptedCommits rest := by
  obtain ⟨t, e⟩ := ev
  cases e with
  | commit s =>
      by_cases h : trim s = [] <;> simp [acceptedCommits, acceptedOf, h]
  | activity => rfl
  | response r => rfl

lemma handleEvent_spec (t : Nat) (e : InEvent) (st : ClientState)
    (hInv : Inv st) :
    Inv (handleEvent t e st) ∧
    accountedChunks (handleEvent t e st) =
      accountedChunks st ++ acceptedOf e := by
  cases e with
  | commit input =>
      obtain ⟨hI1, hacc1, _, _⟩ := bump_inv t st hInv
      obtain ⟨hI2, hchunks2, hdisp2, _⟩ :=
        sendMessage_spec t input (bumpActivityTimer t st) hI1
      refine ⟨hI2, ?_⟩
      show accountedChunks (sendMessage t input (bumpActivityTimer t st)) = _
      unfold accountedChunks
      rw [hchunks2, hdisp2]
      unfold accountedChunks at hacc1
      rw [← List.append_assoc, hacc1]
  | activity =>
      obtain ⟨hI1, hacc1, _, _⟩ := bump_inv t st hInv
      exact ⟨hI1, by rw [show acceptedOf InEvent.activity = [] from rfl,
        List.append_nil]; exact hacc1⟩
  | response r =>
      rw [show handleEvent t (InEvent.response r) st =
        if st.inFlight = 0 then st else resolveSend r st from rfl]
      by_cases hf : st.inFlight = 0
      · rw [if_pos hf]
        exact ⟨hInv, by simp [acceptedOf]⟩
      · rw [if_neg hf]
        obtain ⟨hc, hpt, htm, hnh, hdp, _, _⟩ := resolveSend_fields r st
        refine ⟨⟨?_, ⟨?_, ?_⟩, ?_⟩, ?_⟩
        · intro x hx
          rw [hc] at hx
          exact hInv.1 x hx
        · intro h0
          rw [hpt] at h0
          rw [htm]
          exact hInv.2.1.1 h0
        · intro h2 hh2
          rw [hpt] at hh2
          obtain ⟨d, hd1, hd2⟩ := hInv.2.1.2 h2 hh2
          exact ⟨d, by rw [htm]; exact hd1, by rw [hnh]; exact hd2⟩
        · rw [hc, hpt]
          exact hInv.2.2
        · unfold accountedChunks
          rw [hc, hdp]
          simp [acceptedOf]

lemma stepEvent_spec (st : ClientState) (ev : Nat × InEvent) (hInv : Inv st) :
    Inv (stepEvent st ev) ∧
    accountedChunks (stepEvent st ev) =
      accountedChunks st ++ acceptedOf ev.2 := by
  obtain ⟨hI1, hacc1⟩ := fireDue_spec ev.1 st hInv
  obtain ⟨hI2, hacc2⟩ := handleEvent_spec ev.1 ev.2 (fireDue ev.1 st) hI1
  exact ⟨hI2, by rw [show stepEvent st ev =
    handleEvent ev.1 ev.2 (fireDue ev.1 st) from rfl, hacc2, hacc1]⟩

lemma processEvents_spec (evs : List (Nat × InEvent)) (st : ClientState)
    (hInv : Inv st) :
    Inv (processEvents evs st) ∧
    accountedChunks (processEvents evs st) =
      accountedChunks st ++ acceptedCommits evs := by
  induction evs generalizing st with
  | nil => exact ⟨hInv, by simp [processEvents, acceptedCommits]⟩
  | cons ev rest ih =>
      obtain ⟨hI, hacc⟩ := stepEvent_spec st ev hInv
      obtain ⟨hI2, hacc2⟩ := ih (stepEvent st ev) hI
      refine ⟨hI2, ?_⟩
      rw [show processEvents (ev :: rest) st =
        processEvents rest (stepEvent st ev) from rfl, hacc2, hacc,
        List.append_assoc, acceptedCommits_cons]

lemma initState_inv : Inv initState := by
  refine ⟨?_, ⟨?_, ?_⟩, ?_⟩
  · intro x hx
    cases hx
  · intro _
    rfl
  · intro h2 hh2
    cases hh2
  · simp [initState]

/-! ### Bursts: commits within the quiet period merge into one payload -/

lemma commit_step (t : Nat) (s : JStr) (st : ClientState) (hs : trim s ≠ [])
    (hne : st.pendingChunks ≠ []) (h0 : Nat)
    (hpt : st.pendingTimer = some h0) (d : Nat)
    (htimers : st.timers = [⟨h0, d⟩]) :
    sendMessage t s (bumpActivityTimer t st) =
      { st with
        rendered :=
          appendMessage ⟨Sender.user, trim s, localTime t⟩ st.rendered
        pendingChunks := st.pendingChunks ++ [trim s]
        timers := [⟨st.nextHandle + 1, t + INACTIVITY_MS⟩]
        pendingTimer := some (st.nextHandle + 1)
        nextHandle := st.nextHandle + 2 } := by
  rw [bump_some t st h0 hne hpt d htimers]
  rw [sendMessage_eq t s _ hs]
  exact bump_some t _ st.nextHandle (by simp) rfl (t + INACTIVITY_MS) rfl

lemma commit_step_empty (t : Nat) (s : JStr) (st : ClientState)
    (hs : trim s ≠ []) (hne : st.pendingChunks = [])
    (hpt : st.pendingTimer = none) (htimers : st.timers = []) :
    sendMessage t s (bumpActivityTimer t st) =
      { st with
        rendered :=
          appendMessage ⟨Sender.user, trim s, localTime t⟩ st.rendered
        pendingChunks := st.pendingChunks ++ [trim s]
        timers := [⟨st.nextHandle, t + INACTIVITY_MS⟩]
        pendingTimer := some st.nextHandle
        nextHandle := st.nextHandle + 1 } := by
  rw [bump_empty t st hne]
  rw [sendMessage_eq t s st hs]
  exact bump_none t _ (by simp) hpt htimers

lemma processEvents_burst (evs : List (Nat × InEvent)) (st : ClientState)
    (tPrev : Nat) (h0 : Nat)
    (hgaps : tightFrom tPrev evs = true)
    (hin : evs.all (fun p => isInput p.2) = true)
    (hcl : evs.all (fun p => commitClean p.2) = true)
    (hne : st.pendingChunks ≠ [])
    (hpt : st.pendingTimer = some h0)
    (htimers : st.timers = [⟨h0, tPrev + INACTIVITY_MS⟩]) :
    (processEvents evs st).pendingChunks =
      st.pendingChunks ++ (commitTexts evs).map trim ∧
    (∃ h1, (processEvents evs st).pendingTimer = some h1 ∧
      (processEvents evs st).timers =
        [⟨h1, lastTime tPrev evs + INACTIVITY_MS⟩]) ∧
    (processEvents evs st).dispatches = st.dispatches ∧
    (processEvents evs st).inFlight = st.inFlight ∧
    (processEvents evs st).sendDisabled = st.sendDisabled := by
  induction evs generalizing st tPrev h0 with
  | nil =>
      refine ⟨by simp [processEvents, commitTexts], ⟨h0, hpt, ?_⟩, rfl, rfl, rfl⟩
      exact htimers
  | cons ev rest ih =>
      obtain ⟨t, e⟩ := ev
      simp only [tightFrom, Bool.and_eq_true, decide_eq_true_eq] at hgaps
      obtain ⟨⟨hle, hlt⟩, hgaps'⟩ := hgaps
      simp only [List.all_cons, Bool.and_eq_true] at hin hcl
      obtain ⟨hin1, hin'⟩ := hin
      obtain ⟨hcl1, hcl'⟩ := hcl
      have hfire : fireDue t st = st :=
        fireDue_single_not_due t st h0 (tPrev + INACTIVITY_MS) htimers
          (by omega)
      have hproc : processEvents ((t, e) :: rest) st =
          processEvents rest (stepEvent st (t, e)) := rfl
      cases e with
      | response r => simp [isInput] at hin1
      | activity =>
          have hstep : stepEvent st (t, .activity) =
              { st with
                timers := [⟨st.nextHandle, t + INACTIVITY_MS⟩]
                pendingTimer := some st.nextHandle
                nextHandle := st.nextHandle + 1 } := by
            show handleEvent t .activity (fireDue t st) = _
            rw [hfire]
            exact bump_some t st h0 hne hpt (tPrev + INACTIVITY_MS) htimers
          rw [hproc, hstep]
          obtain ⟨c1, ⟨h1, c2a, c2b⟩, c3, c4, c5⟩ :=
            ih { st with
                  timers := [⟨st.nextHandle, t + INACTIVITY_MS⟩]
                  pendingTimer := some st.nextHandle
                  nextHandle := st.nextHandle + 1 }
              t st.nextHandle hgaps' hin' hcl' hne rfl rfl
          exact ⟨c1, ⟨h1, c2a, c2b⟩, c3, c4, c5⟩
      | commit s =>
          have hs : trim s ≠ [] := by
            simpa [commitClean] using hcl1
          have hstep : stepEvent st (t, .commit s) =
              { st with
                rendered :=
                  appendMessage ⟨Sender.user, trim s, localTime t⟩ st.rendered
                pendingChunks := st.pendingChunks ++ [trim s]
                timers := [⟨st.nextHandle + 1, t + INACTIVITY_MS⟩]
                pendingTimer := some (st.nextHandle + 1)
                nextHandle := st.nextHandle + 2 } := by
            show sendMessage t s (bumpActivityTimer t (fireDue t st)) = _
            rw [hfire]
            exact commit_step t s st hs hne h0 hpt (tPrev + INACTIVITY_MS)
              htimers
          rw [hproc, hstep]
          obtain ⟨c1, ⟨h1, c2a, c2b⟩, c3, c4, c5⟩ :=
            ih { st with
                  rendered :=
                    appendMessage ⟨Sender.user, trim s, localTime t⟩ st.rendered
                  pendingChunks := st.pendingChunks ++ [trim s]
                  timers := [⟨st.nextHandle + 1, t + INACTIVITY_MS⟩]
                  pendingTimer := some (st.nextHandle + 1)
                  nextHandle := st.nextHandle + 2 }
              t (st.nextHandle + 1) hgaps' hin' hcl' (by simp) rfl rfl
          refine ⟨?_, ⟨h1, c2a, c2b⟩, c3, c4, c5⟩
          rw [c1]
          show st.pendingChunks ++ [trim s] ++ _ = _
          rw [List.append_assoc]
          rfl

lemma burst_tail (a : Nat) (l : List (Nat × InEvent))
    (h : tightFrom a l = true) : burst l = true := by
  cases l with
  | nil => rfl
  | cons p l2 =>
      obtain ⟨t, e⟩ := p
      simp only [tightFrom, Bool.and_eq_true] at h
      exact h.2

lemma lastTime_irrel (l : List (Nat × InEvent)) (hl : l ≠ []) (a b : Nat) :
    lastTime a l = lastTime b l := by
  cases l with
  | nil => exact absurd rfl hl
  | cons p l2 => rfl

lemma commitTexts_trim_clean (evs : List (Nat × InEvent))
    (hcl : evs.all (fun p => commitClean p.2) = true) :
    ∀ x ∈ (commitTexts evs).map trim, x ≠ [] ∧ trim x = x := by
  induction evs with
  | nil => intro x hx; cases hx
  | cons ev rest ih =>
      obtain ⟨t, e⟩ := ev
      simp only [List.all_cons, Bool.and_eq_true] at hcl
      cases e with
      | commit s =>
          intro x hx
          rw [show commitTexts ((t, InEvent.commit s) :: rest) =
            s :: commitTexts rest from rfl, List.map_cons] at hx
          rcases List.mem_cons.1 hx with h1 | h2
          · rw [h1]
            exact ⟨by simpa [commitClean] using hcl.1, trim_trim s⟩
          · exact ih hcl.2 x h2
      | activity => intro x hx; exact ih hcl.2 x hx
      | response r => intro x hx; exact ih hcl.2 x hx

lemma runTrace_spec (evs : List (Nat × InEvent)) (tEnd : Nat) :
    Inv (runTrace evs tEnd) ∧
    accountedChunks (runTrace evs tEnd) = acceptedCommits evs := by
  obtain ⟨hI, hacc⟩ := processEvents_spec evs initState initState_inv
  obtain ⟨hI2, hacc2⟩ := fireDue_spec tEnd _ hI
  refine ⟨hI2, ?_⟩
  rw [show runTrace evs tEnd = fireDue tEnd (processEvents evs initState)
    from rfl, hacc2, hacc]
  simp [accountedChunks, initState]

lemma fire_after_burst (stF : ClientState) (tEnd h1 dl : Nat) (L : List JStr)
    (hchunks : stF.pendingChunks = L) (hLne : L ≠ [])
    (hclean : ∀ x ∈ L, x ≠ [] ∧ trim x = x)
    (htm : stF.timers = [⟨h1, dl⟩]) (hdl : dl ≤ tEnd)
    (hdisp : stF.dispatches = []) :
    (fireDue tEnd stF).dispatches.map Dispatch.payload = [joinSp L] := by
  obtain ⟨hjne, hjtrim⟩ := joinSp_clean L hclean hLne
  rw [fireDue_single_due tEnd stF h1 dl htm hdl]
  have hne2 : ({ stF with timers := ([] : List Timer) }).pendingChunks ≠ [] := by
    show stF.pendingChunks ≠ []
    rw [hchunks]
    exact hLne
  have hm : trim (joinSp
      ({ stF with timers := ([] : List Timer) }).pendingChunks) ≠ [] := by
    show trim (joinSp stF.pendingChunks) ≠ []
    rw [hchunks, hjtrim]
    exact hjne
  rw [flush_dispatch_eq _ hne2 hm]
  show (stF.dispatches ++
    [(⟨trim (joinSp stF.pendingChunks), stF.pendingChunks,
      stF.sendDisabled, stF.inFlight⟩ : Dispatch)]).map Dispatch.payload =
    [joinSp L]
  rw [hdisp, hchunks, hjtrim]
  rfl

/-! ### Claim theorems -/

/-- C1: for every sequence of commits of non-whitespace texts in which each
commit or activity signal occurs strictly less than the quiet period after
the previous one, exactly one merged payload is sent once the quiet period
elapses, and it equals the trimmed fragments joined by single spaces in
commit order. -/
theorem c1_burst_merges_to_single_send
    (evs : List (Nat × InEvent)) (tEnd : Nat)
    (hburst : burst evs = true)
    (hin : evs.all (fun p => isInput p.2) = true)
    (hcl : evs.all (fun p => commitClean p.2) = true)
    (hne : commitTexts evs ≠ [])
    (hend : lastTime 0 evs + INACTIVITY_MS ≤ tEnd) :
    (runTrace evs tEnd).dispatches.map Dispatch.payload =
      [joinSp ((commitTexts evs).map trim)] := by
  induction evs with
  | nil => exact absurd rfl hne
  | cons ev rest ih =>
      obtain ⟨t, e⟩ := ev
      have hclAll := hcl
      simp only [List.all_cons, Bool.and_eq_true] at hin hcl
      obtain ⟨hin1, hin2⟩ := hin
      obtain ⟨hcl1, hcl2⟩ := hcl
      cases e with
      | response r => simp [isInput] at hin1
      | activity =>
          have hstep : processEvents ((t, InEvent.activity) :: rest) initState =
              processEvents rest initState := by
            show processEvents rest (stepEvent initState (t, .activity)) = _
            rw [show stepEvent initState (t, .activity) =
              bumpActivityTimer t (fireDue t initState) from rfl,
              fireDue_no_timers t initState rfl, bump_empty t initState rfl]
          have hrest_ne : rest ≠ [] := by
            intro hr
            apply hne
            subst hr
            rfl
          have hend2 : lastTime 0 rest + INACTIVITY_MS ≤ tEnd := by
            rw [lastTime_irrel rest hrest_ne 0 t]
            exact hend
          rw [show runTrace ((t, InEvent.activity) :: rest) tEnd =
            fireDue tEnd
              (processEvents ((t, InEvent.activity) :: rest) initState)
            from rfl, hstep]
          exact ih (burst_tail t rest hburst) hin2 hcl2 hne hend2
      | commit s =>
          have hs : trim s ≠ [] := by simpa [commitClean] using hcl1
          have hgaps : tightFrom t rest = true := hburst
          have hstep : stepEvent initState (t, InEvent.commit s) =
              { initState with
                rendered := appendMessage ⟨Sender.user, trim s, localTime t⟩
                  initState.rendered
                pendingChunks := initState.pendingChunks ++ [trim s]
                timers := [⟨initState.nextHandle, t + INACTIVITY_MS⟩]
                pendingTimer := some initState.nextHandle
                nextHandle := initState.nextHandle + 1 } := by
            show sendMessage t s (bumpActivityTimer t (fireDue t initState)) = _
            rw [fireDue_no_timers t initState rfl]
            exact commit_step_empty t s initState hs rfl rfl rfl
          obtain ⟨c1, ⟨h1, c2a, c2b⟩, c3, c4, c5⟩ :=
            processEvents_burst rest
              { initState with
                rendered := appendMessage ⟨Sender.user, trim s, localTime t⟩
                  initState.rendered
                pendingChunks := initState.pendingChunks ++ [trim s]
                timers := [⟨initState.nextHandle, t + INACTIVITY_MS⟩]
                pendingTimer := some initState.nextHandle
                nextHandle := initState.nextHandle + 1 }
              t initState.nextHandle hgaps hin2 hcl2 (by simp) rfl rfl
          have hclean := commitTexts_trim_clean
            ((t, InEvent.commit s) :: rest) hclAll
          have hchne : (commitTexts ((t, InEvent.commit s) :: rest)).map trim
              ≠ [] := by
            simp [commitTexts]
          have hlast : lastTime t rest + INACTIVITY_MS ≤ tEnd := hend
          rw [show runTrace ((t, InEvent.commit s) :: rest) tEnd =
            fireDue tEnd (processEvents rest
              (stepEvent initState (t, InEvent.commit s))) from rfl, hstep]
          refine fire_after_burst _ tEnd h1 (lastTime t rest + INACTIVITY_MS)
            ((commitTexts ((t, InEvent.commit s) :: rest)).map trim)
            ?_ hchne hclean c2b hlast ?_
          · rw [c1]
            rfl
          · rw [c3]
            rfl

lemma fire_due_dispatch (stF : ClientState) (tEnd h1 dl : Nat) (L : List JStr)
    (hchunks : stF.pendingChunks = L) (hLne : L ≠ [])
    (hclean : ∀ x ∈ L, x ≠ [] ∧ trim x = x)
    (htm : stF.timers = [⟨h1, dl⟩]) (hdl : dl ≤ tEnd) :
    fireDue tEnd stF =
      { stF with
        pendingChunks := []
        pendingTimer := none
        timers := []
        sendDisabled := true
        typing := true
        dispatches := stF.dispatches ++
          [⟨joinSp L, L, stF.sendDisabled, stF.inFlight⟩]
        inFlight := stF.inFlight + 1 } := by
  obtain ⟨hjne, hjtrim⟩ := joinSp_clean L hclean hLne
  rw [fireDue_single_due tEnd stF h1 dl htm hdl]
  have hne2 : ({ stF with timers := ([] : List Timer) }).pendingChunks ≠ [] := by
    show stF.pendingChunks ≠ []
    rw [hchunks]
    exact hLne
  have hm : trim (joinSp
      ({ stF with timers := ([] : List Timer) }).pendingChunks) ≠ [] := by
    show trim (joinSp stF.pendingChunks) ≠ []
    rw [hchunks, hjtrim]
    exact hjne
  rw [flush_dispatch_eq _ hne2 hm]
  show ({ stF with
    pendingChunks := []
    pendingTimer := none
    timers := ([] : List Timer)
    sendDisabled := true
    typing := true
    dispatches := stF.dispatches ++
      [(⟨trim (joinSp stF.pendingChunks), stF.pendingChunks,
        stF.sendDisabled, stF.inFlight⟩ : Dispatch)]
    inFlight := stF.inFlight + 1 } : ClientState) = _
  rw [hchunks, hjtrim]

/-- Witness for C1: the spec scenario commit "hi", wait 1s, commit "there",
wait until 4s of quiet have passed, gives one send with body "hi there". -/
theorem c1_witness :
    (runTrace [(0, InEvent.commit ['h', 'i']),
      (1000, InEvent.commit ['t', 'h', 'e', 'r', 'e'])] 5000).dispatches.map
      Dispatch.payload = [['h', 'i', ' ', 't', 'h', 'e', 'r', 'e']] := by
  have h := c1_burst_merges_to_single_send
    [(0, InEvent.commit ['h', 'i']),
      (1000, InEvent.commit ['t', 'h', 'e', 'r', 'e'])] 5000
    (by decide) (by decide) (by decide) (by decide) (by decide)
  rw [h]
  decide

/-- C2: two commits of non-whitespace texts separated by at least the quiet
period, with no other activity, produce two separate sends, each carrying
only its own trimmed fragment. -/
theorem c2_separated_commits_two_sends
    (t1 t2 tEnd : Nat) (a b : JStr)
    (ha : trim a ≠ []) (hb : trim b ≠ [])
    (h12 : t1 + INACTIVITY_MS ≤ t2) (hEnd : t2 + INACTIVITY_MS ≤ tEnd) :
    (runTrace [(t1, InEvent.commit a),
      (t2, InEvent.commit b)] tEnd).dispatches.map Dispatch.payload =
      [trim a, trim b] := by
  have hcleanA : ∀ x ∈ [trim a], x ≠ [] ∧ trim x = x := by
    intro x hx
    rw [List.mem_singleton.1 hx]
    exact ⟨ha, trim_trim a⟩
  have hcleanB : ∀ x ∈ [trim b], x ≠ [] ∧ trim x = x := by
    intro x hx
    rw [List.mem_singleton.1 hx]
    exact ⟨hb, trim_trim b⟩
  have hstep1 : stepEvent initState (t1, InEvent.commit a) =
      { pendingChunks := [trim a]
        pendingTimer := some 0
        timers := [⟨0, t1 + INACTIVITY_MS⟩]
        nextHandle := 1
        sendDisabled := false
        typing := false
        rendered := appendMessage ⟨Sender.user, trim a, localTime t1⟩ []
        dispatches := []
        inFlight := 0 } := by
    show sendMessage t1 a (bumpActivityTimer t1 (fireDue t1 initState)) = _
    rw [fireDue_no_timers t1 initState rfl]
    exact commit_step_empty t1 a initState ha rfl rfl rfl
  have hstep2 : stepEvent
      { pendingChunks := [trim a]
        pendingTimer := some 0
        timers := [⟨0, t1 + INACTIVITY_MS⟩]
        nextHandle := 1
        sendDisabled := false
        typing := false
        rendered := appendMessage ⟨Sender.user, trim a, localTime t1⟩ []
        dispatches := []
        inFlight := 0 } (t2, InEvent.commit b) =
      { pendingChunks := [trim b]
        pendingTimer := some 1
        timers := [⟨1, t2 + INACTIVITY_MS⟩]
        nextHandle := 2
        sendDisabled := true
        typing := true
        rendered := appendMessage ⟨Sender.user, trim b, localTime t2⟩
          (appendMessage ⟨Sender.user, trim a, localTime t1⟩ [])
        dispatches := [⟨trim a, [trim a], false, 0⟩]
        inFlight := 1 } := by
    show sendMessage t2 b (bumpActivityTimer t2 (fireDue t2 _)) = _
    rw [fire_due_dispatch _ t2 0 (t1 + INACTIVITY_MS) [trim a] rfl
      (by simp) hcleanA rfl h12]
    exact commit_step_empty t2 b _ hb rfl rfl rfl
  rw [show runTrace [(t1, InEvent.commit a), (t2, InEvent.commit b)] tEnd =
    fireDue tEnd (stepEvent (stepEvent initState (t1, InEvent.commit a))
      (t2, InEvent.commit b)) from rfl, hstep1, hstep2,
    fire_due_dispatch _ tEnd 1 (t2 + INACTIVITY_MS) [trim b] rfl
      (by simp) hcleanB rfl hEnd]
  rfl

/-- Witness for C2: the spec scenario commit "a", wait 5s, commit "b",
wait 5s, gives two sends with payloads "a" then "b". -/
theorem c2_witness :
    (runTrace [(0, InEvent.commit ['a']),
      (5000, InEvent.commit ['b'])] 10000).dispatches.map Dispatch.payload =
      [['a'], ['b']] := by
  have h := c2_separated_commits_two_sends 0 5000 10000 ['a'] ['b']
    (by decide) (by decide) (by decide) (by decide)
  rw [h]
  decide

lemma bump_chunks (now : Nat) (st : ClientState) :
    (bumpActivityTimer now st).pendingChunks = st.pendingChunks := by
  unfold bumpActivityTimer
  split <;> rfl

/-- C3: the flush factors as clear-then-dispatch — the pending buffer and the
timer handle are already cleared in the state handed to the dispatching step,
and the dispatching step never touches them; consequently, over every trace,
the fragments inside dispatched payloads followed by the still-pending
fragments are exactly the accepted commits, each consumed once and in order;
and a commit buffers its fragment regardless of any in-flight request. -/
theorem c3_clear_before_dispatch :
    (∀ st : ClientState, st.pendingChunks ≠ [] →
      flushPendingChunks st =
        flushDispatch (trim (joinSp st.pendingChunks)) st.pendingChunks
          (flushClear st)) ∧
    (∀ st : ClientState, (flushClear st).pendingChunks = [] ∧
      (flushClear st).pendingTimer = none) ∧
    (∀ (m : JStr) (c : List JStr) (st : ClientState),
      (flushDispatch m c st).pendingChunks = st.pendingChunks ∧
      (flushDispatch m c st).pendingTimer = st.pendingTimer) ∧
    (∀ (evs : List (Nat × InEvent)) (tEnd : Nat),
      ((runTrace evs tEnd).dispatches.map Dispatch.chunks).flatten ++
        (runTrace evs tEnd).pendingChunks = acceptedCommits evs) ∧
    (∀ (now : Nat) (input : JStr) (st : ClientState), trim input = [] ∨
      (sendMessage now input st).pendingChunks =
        st.pendingChunks ++ [trim input]) := by
  refine ⟨?_, ?_, ?_, ?_, ?_⟩
  · intro st h
    unfold flushPendingChunks
    rw [if_neg h]
  · intro st
    exact ⟨rfl, rfl⟩
  · intro m c st
    unfold flushDispatch setSending
    split <;> exact ⟨rfl, rfl⟩
  · intro evs tEnd
    exact (runTrace_spec evs tEnd).2
  · intro now input st
    by_cases h : trim input = []
    · exact Or.inl h
    · refine Or.inr ?_
      rw [sendMessage_eq now input st h, bump_chunks]

/-- Witness for C3 at a concrete buffered state and a concrete commit. -/
theorem c3_witness :
    flushPendingChunks { initState with pendingChunks := [['h', 'i']] } =
      flushDispatch (trim (joinSp [['h', 'i']])) [['h', 'i']]
        (flushClear { initState with pendingChunks := [['h', 'i']] }) ∧
    (sendMessage 0 ['h', 'i'] initState).pendingChunks =
      initState.pendingChunks ++ [trim ['h', 'i']] := by
  constructor
  · exact c3_clear_before_dispatch.1 _ (by decide)
  · rcases c3_clear_before_dispatch.2.2.2.2 0 ['h', 'i'] initState with h | h
    · exact absurd h (by decide)
    · exact h

/-- Counterexample to C4: commit "a" at 0 ms, commit "b" at 4001 ms, let the
clock reach 9000 ms with the first request still unresolved.  The second
flush initiates a network call while one request is already in flight and
while the send flag is still set. -/
theorem c4_counterexample :
    ((runTrace [(0, InEvent.commit ['a']), (4001, InEvent.commit ['b'])]
      9000).dispatches.map Dispatch.wasInFlight = [0, 1]) ∧
    ((runTrace [(0, InEvent.commit ['a']), (4001, InEvent.commit ['b'])]
      9000).dispatches.map Dispatch.wasSending = [false, true]) := by
  decide

/-- C4 (amended): a flush can never re-dispatch the buffer it just flushed —
running the flush again immediately changes nothing, because the buffer was
cleared before the request started.  (A flush of freshly buffered commits can
still start while an earlier request is in flight.) -/
theorem c4_flush_not_reentrant (st : ClientState) :
    flushPendingChunks (flushPendingChunks st) = flushPendingChunks st := by
  by_cases h : st.pendingChunks = []
  · rw [flush_empty st h]
    exact flush_empty st h
  · by_cases hm : trim (joinSp st.pendingChunks) = []
    · rw [flush_abort_eq st h hm]
      exact flush_empty _ rfl
    · rw [flush_dispatch_eq st h hm]
      exact flush_empty _ rfl

/-- C5: at every reachable point between event-loop turns at most one
inactivity timer is live and the buffer is non-empty exactly when a timer is
armed; an activity signal with an empty buffer is a complete no-op; and an
activity signal with a non-empty buffer cancels the previous scheduled
callback and creates a new, distinct one. -/
theorem c5_single_timer_invariant :
    (∀ (evs : List (Nat × InEvent)) (tEnd : Nat),
      (runTrace evs tEnd).timers.length ≤ 1 ∧
      ((runTrace evs tEnd).pendingChunks = [] ↔
        (runTrace evs tEnd).pendingTimer = none)) ∧
    (∀ (now : Nat) (st : ClientState), st.pendingChunks = [] →
      bumpActivityTimer now st = st) ∧
    (∀ (now : Nat) (st : ClientState) (h d : Nat), st.pendingChunks ≠ [] →
      st.pendingTimer = some h → st.timers = [⟨h, d⟩] → h < st.nextHandle →
      (bumpActivityTimer now st).timers =
        [⟨st.nextHandle, now + INACTIVITY_MS⟩] ∧
      (bumpActivityTimer now st).pendingTimer = some st.nextHandle ∧
      st.nextHandle ≠ h) := by
  refine ⟨?_, ?_, ?_⟩
  · intro evs tEnd
    obtain ⟨⟨_, hTL, hiff⟩, _⟩ := runTrace_spec evs tEnd
    refine ⟨?_, hiff⟩
    cases hpt : (runTrace evs tEnd).pendingTimer with
    | none => rw [hTL.1 hpt]; decide
    | some h =>
        obtain ⟨d, htm, _⟩ := hTL.2 h hpt
        rw [htm]
        simp
  · intro now st h
    exact bump_empty now st h
  · intro now st h d hne hpt htimers hlt
    rw [bump_some now st h hne hpt d htimers]
    exact ⟨rfl, rfl, by omega⟩

/-- Witness for C5: an activity signal on the empty initial buffer changes
nothing, and on a concrete one-chunk state it replaces the single timer. -/
theorem c5_witness :
    bumpActivityTimer 7 initState = initState ∧
    ((bumpActivityTimer 5000
        { initState with
          pendingChunks := [['h', 'i']]
          pendingTimer := some 0
          timers := [⟨0, 4000⟩]
          nextHandle := 1 }).timers = [⟨1, 5000 + INACTIVITY_MS⟩] ∧
      (bumpActivityTimer 5000
        { initState with
          pendingChunks := [['h', 'i']]
          pendingTimer := some 0
          timers := [⟨0, 4000⟩]
          nextHandle := 1 }).pendingTimer = some 1 ∧
      (1 : Nat) ≠ 0) := by
  constructor
  · exact c5_single_timer_invariant.2.1 7 initState rfl
  · exact c5_single_timer_invariant.2.2 5000
      { initState with
        pendingChunks := [['h', 'i']]
        pendingTimer := some 0
        timers := [⟨0, 4000⟩]
        nextHandle := 1 } 0 4000 (by decide) rfl rfl (by decide)

lemma resolveSend_inFlight (r : SendResult) (st : ClientState) :
    (resolveSend r st).inFlight = st.inFlight - 1 := by
  cases r with
  | ok bot =>
      cases bot with
      | none => rfl
      | some b =>
          simp only [resolveSend, setSending]
          split_ifs <;> rfl
  | httpError => rfl
  | transportError => rfl

/-- Counterexample to C6: commit "a" at 0 ms and commit "b" at 4001 ms; the
second payload is dispatched by the timer firing at 8002 ms, just before the
first request's response is handled.  That response re-enables the send
affordance even though the second request is still in flight, so "the
affordance is disabled while a send is in flight" fails. -/
theorem c6_counterexample :
    0 < (runTrace [(0, InEvent.commit ['a']), (4001, InEvent.commit ['b']),
      (8002, InEvent.response (SendResult.ok none))] 8002).inFlight ∧
    (runTrace [(0, InEvent.commit ['a']), (4001, InEvent.commit ['b']),
      (8002, InEvent.response (SendResult.ok none))] 8002).sendDisabled
      = false := by
  decide

/-- C6 (amended): each dispatch disables the send affordance, shows the
composing indicator and adds one in-flight request; each completion — success,
non-success response, or transport error — re-enables the affordance, hides
the indicator and retires one request; failed completions render no bubble,
leave the already-rendered user echo untouched, and initiate no retry.  When
requests do not overlap, this gives "disabled exactly while in flight"; with
overlapping requests the earlier completion re-enables the affordance while
the later request is still pending. -/
theorem c6_send_lifecycle :
    (∀ st : ClientState, st.pendingChunks ≠ [] →
      trim (joinSp st.pendingChunks) ≠ [] →
      (flushPendingChunks st).sendDisabled = true ∧
      (flushPendingChunks st).typing = true ∧
      (flushPendingChunks st).inFlight = st.inFlight + 1) ∧
    (∀ (r : SendResult) (st : ClientState),
      (resolveSend r st).sendDisabled = false ∧
      (resolveSend r st).typing = false ∧
      (resolveSend r st).inFlight = st.inFlight - 1) ∧
    (∀ st : ClientState,
      (resolveSend SendResult.httpError st).rendered = st.rendered ∧
      (resolveSend SendResult.httpError st).dispatches = st.dispatches ∧
      (resolveSend SendResult.transportError st).rendered = st.rendered ∧
      (resolveSend SendResult.transportError st).dispatches =
        st.dispatches) := by
  refine ⟨?_, ?_, ?_⟩
  · intro st h hm
    rw [flush_dispatch_eq st h hm]
    exact ⟨rfl, rfl, rfl⟩
  · intro r st
    obtain ⟨_, _, _, _, _, hsd, hty⟩ := resolveSend_fields r st
    exact ⟨hsd, hty, resolveSend_inFlight r st⟩
  · intro st
    exact ⟨rfl, rfl, rfl, rfl⟩

/-- Witness for C6 at a concrete buffered state. -/
theorem c6_witness :
    (flushPendingChunks
        { initState with pendingChunks := [['a']] }).sendDisabled = true ∧
    (flushPendingChunks
        { initState with pendingChunks := [['a']] }).typing = true ∧
    (flushPendingChunks
        { initState with pendingChunks := [['a']] }).inFlight =
      { initState with pendingChunks := [['a']] }.inFlight + 1 := by
  exact c6_send_lifecycle.1 { initState with pendingChunks := [['a']] }
    (by decide) (by decide)

/-- C7: on a successful send response, the bot record is rendered exactly
when it is present with text that is non-empty after trimming; an absent bot
record, or one whose text trims to empty, renders nothing. -/
theorem c7_bot_reply_rendered_iff (st : ClientState) (b : Msg) :
    ((resolveSend (SendResult.ok (some b)) st).rendered =
      if trim b.text = [] then st.rendered else st.rendered ++ [b]) ∧
    (resolveSend (SendResult.ok none) st).rendered = st.rendered := by
  constructor
  · by_cases htr : trim b.text = []
    · rw [if_pos htr]
      simp only [resolveSend, setSending]
      rw [if_neg (by simp [htr])]
    · rw [if_neg htr]
      have hbt : b.text ≠ [] := by
        intro h0
        apply htr
        rw [h0]
        rfl
      simp only [resolveSend, setSending]
      rw [if_pos ⟨hbt, htr⟩]
      show appendMessage b st.rendered = st.rendered ++ [b]
      unfold appendMessage
      rw [if_neg (by simp [hbt, htr])]
  · rfl

/-- C8: a commit whose text trims to empty is a complete no-op — no buffer
change, no bubble, no timer — and a flush whose merged text trims to empty
makes no network call. -/
theorem c8_whitespace_ignored :
    (∀ (now : Nat) (input : JStr) (st : ClientState), trim input = [] →
      sendMessage now input st = st) ∧
    (∀ st : ClientState, trim (joinSp st.pendingChunks) = [] →
      (flushPendingChunks st).dispatches = st.dispatches ∧
      (flushPendingChunks st).inFlight = st.inFlight) := by
  constructor
  · intro now input st h
    exact sendMessage_ws now input st h
  · intro st hm
    by_cases h : st.pendingChunks = []
    · rw [flush_empty st h]
      exact ⟨rfl, rfl⟩
    · rw [flush_abort_eq st h hm]
      exact ⟨rfl, rfl⟩

/-- Witness for C8: committing two spaces changes nothing, and flushing a
buffer whose merge trims to empty dispatches nothing. -/
theorem c8_witness :
    sendMessage 3 [' ', ' '] initState = initState ∧
    ((flushPendingChunks
        { initState with pendingChunks := [[' ']] }).dispatches =
      { initState with pendingChunks := [[' ']] }.dispatches ∧
      (flushPendingChunks
        { initState with pendingChunks := [[' ']] }).inFlight =
      { initState with pendingChunks := [[' ']] }.inFlight) := by
  exact ⟨c8_whitespace_ignored.1 3 [' ', ' '] initState (by decide),
    c8_whitespace_ignored.2 { initState with pendingChunks := [[' ']] }
      (by decide)⟩

/-- Counterexample to C9: a failing history fetch is logged, but the messages
panel keeps whatever it showed before — no "couldn't load" placeholder is
written (only the debug panel gets one). -/
theorem c9_counterexample :
    loadHistory HistoryResult.fetchError (HistoryPanel.content []) =
      (HistoryPanel.content [], true) ∧
    HistoryPanel.content [] ≠ HistoryPanel.couldNotLoad := by
  decide

/-- C9 (amended): a failing or malformed state fetch is logged and the debug
panel shows the explicit "couldn't load" placeholder; a failing history fetch
is only logged, leaving the messages panel unchanged, and a parseable but
non-array history body leaves the panel cleared — in neither history case is
a placeholder shown, and no exception propagates further. -/
theorem c9_fetch_failure_handling :
    (∀ r : StateFetch, r ≠ StateFetch.ok →
      openDebugPanel r = (DebugBody.couldNotLoad, true)) ∧
    (∀ p : HistoryPanel,
      loadHistory HistoryResult.fetchError p = (p, true)) ∧
    (∀ p : HistoryPanel,
      loadHistory HistoryResult.badShape p =
        (HistoryPanel.content [], true)) := by
  refine ⟨?_, fun p => rfl, fun p => rfl⟩
  intro r hr
  cases r with
  | ok => exact absurd rfl hr
  | httpError => rfl
  | transportError => rfl

/-- Witness for C9 at the concrete failing state fetch. -/
theorem c9_witness :
    openDebugPanel StateFetch.transportError =
      (DebugBody.couldNotLoad, true) := by
  exact c9_fetch_failure_handling.1 StateFetch.transportError (by decide)

/-- C10: in every reachable state, each buffered fragment is a non-empty
string equal to its own trim; whenever the inactivity timer is armed — the
only way the flush callback can run — the buffer is non-empty and its merge
survives trimming, so the flush neither early-returns nor aborts but
dispatches exactly one payload built from the whole buffer. -/
theorem c10_buffer_always_clean (evs : List (Nat × InEvent)) (tEnd : Nat) :
    (∀ x ∈ (runTrace evs tEnd).pendingChunks, x ≠ [] ∧ trim x = x) ∧
    ((runTrace evs tEnd).pendingTimer ≠ none →
      (runTrace evs tEnd).pendingChunks ≠ [] ∧
      trim (joinSp (runTrace evs tEnd).pendingChunks) =
        joinSp (runTrace evs tEnd).pendingChunks ∧
      joinSp (runTrace evs tEnd).pendingChunks ≠ [] ∧
      (flushPendingChunks (runTrace evs tEnd)).dispatches =
        (runTrace evs tEnd).dispatches ++
          [⟨trim (joinSp (runTrace evs tEnd).pendingChunks),
            (runTrace evs tEnd).pendingChunks,
            (runTrace evs tEnd).sendDisabled,
            (runTrace evs tEnd).inFlight⟩]) := by
  obtain ⟨⟨hclean, hTL, hiff⟩, _⟩ := runTrace_spec evs tEnd
  refine ⟨hclean, ?_⟩
  intro hpt
  have hne : (runTrace evs tEnd).pendingChunks ≠ [] := by
    intro hc
    exact hpt (hiff.1 hc)
  obtain ⟨hjne, hjtrim⟩ := joinSp_clean _ hclean hne
  have hm : trim (joinSp (runTrace evs tEnd).pendingChunks) ≠ [] := by
    rw [hjtrim]
    exact hjne
  refine ⟨hne, hjtrim, hjne, ?_⟩
  rw [flush_dispatch_eq _ hne hm]

/-- Witness for C10: right after the spec scenario's first commit the timer
is armed, the buffer is non-empty and its merge survives trimming. -/
theorem c10_witness :
    (runTrace [(0, InEvent.commit ['h', 'i'])] 0).pendingChunks ≠ [] ∧
    joinSp (runTrace [(0, InEvent.commit ['h', 'i'])] 0).pendingChunks
      ≠ [] := by
  have h := (c10_buffer_always_clean [(0, InEvent.commit ['h', 'i'])] 0).2
    (by decide)
  exact ⟨h.1, h.2.2.1⟩

end Chat
